import Mathlib

/-!
Verification of the uidgen package (sevings/uidgen, file uidgenerator.go).

The Go source is shallowly embedded: machine integers are modelled as Nat
(uint64 values, reduced modulo 2^64 at every operation that can wrap) or as
Int (int64 values, wrapped into the interval from -2^63 to 2^63 where Go
wraps), strings are modelled as lists of byte values (Nat), and fallible
functions return Except or Option.  Go division and remainder on int64
truncate toward zero and are modelled by Int.tdiv and Int.tmod; the Go
arithmetic right shift of an int64 is floor division and is modelled by
Int.fdiv.  Shift counts in Go have no upper bound and shifting a 64-bit
value by 64 or more yields 0 (or -1 for arithmetic right shifts of negative
values); the Nat/Int modelling below reproduces that.

Modelled here: the configuration record and its update derivation, the
constructor NewUidGenerator, the issuance step NextID (the wall-clock
reading, an int64 count of nanoseconds elapsed since the configured epoch
start, is passed as an explicit argument; the sleep performed on counter
exhaustion only delays the call and does not affect the returned value, so
it is not modelled), the base-32 codec ToBase32/FromBase32 together with
the package decode table built by init(), the time conversions
FromUnix/Unix, and the field extractors ServerID/Count.  The decimal codec
(String/FromString) and the nanosecond time conversions are not needed by
any theorem below and are omitted.
-/

namespace Uidgen


/-- Reduction modulo 2^64: the wraparound of Go uint64 arithmetic. -/
def w64 (x : Nat) : Nat := x % 2 ^ 64

/-- Go conversion of an integer value to uint64 (two's complement reinterpretation). -/
def toUint64 (x : Int) : Nat := (x % ((2 : Int) ^ 64)).toNat

/-- Go conversion of a uint64 value to int64 (two's complement reinterpretation). -/
def toInt64 (n : Nat) : Int :=
  if n % 2 ^ 64 < 2 ^ 63 then ((n % 2 ^ 64 : Nat) : Int)
  else ((n % 2 ^ 64 : Nat) : Int) - 2 ^ 64

/-- Wraparound of Go int64 arithmetic. -/
def i64wrap (x : Int) : Int := toInt64 (toUint64 x)

/-- Errors returned by the package; they model the three exported error values
ErrTooLongID, ErrTooBigServerID and ErrInvalidStringUID. -/
inductive UidError where
  | tooLongID
  | tooBigServerID
  | invalidStringUID
deriving DecidableEq, Repr

/-- UidGeneratorConfig.  The first seven fields are the exported Go fields
(EpochLen, SrvLen, CntLen, IntervalLen are uint8, modelled as Nat and assumed
below 256 in the theorems; EpochStart and SrvID are int64).  The remaining
fields are the unexported derived constants written by update; strLen is an
int8 that is always nonnegative when written, so it is modelled as Nat.
All derived fields default to the Go zero value. -/
structure UidGeneratorConfig where
  EpochLen : Nat := 0
  SrvLen : Nat := 0
  CntLen : Nat := 0
  IntervalLen : Nat := 0
  TruncStr : Bool := false
  EpochStart : Int := 0
  SrvID : Int := 0
  strLen : Nat := 0
  epochShift : Nat := 0
  epochMask : Nat := 0
  epochIota : Nat := 0
  maxSrv : Nat := 0
  srvMask : Nat := 0
  maxCnt : Nat := 0
  cntMask : Nat := 0
  interval : Int := 0
  timeMask : Int := 0
deriving DecidableEq, Repr

/-- The method update of UidGeneratorConfig.  idLen is computed in uint8
arithmetic, hence the reduction modulo 256; the comparison idLen > 64 is the
length check.  strLen is int8(math.Ceil(float64(idLen)/5)): for idLen at most
64 the float64 computation is exact, so it equals the integer ceiling
(idLen + 4) / 5.  Each uint64 constant is computed with Go wraparound:
1 << n is 0 for n at least 64, and x - 1 wraps when x is 0.  When
IntervalLen is 0 it defaults to the uint8 value 61 - EpochLen (wrapping).
interval = int64(1) << IntervalLen and timeMask = interval - 1 in int64
arithmetic. -/
def update (cfg : UidGeneratorConfig) : Except UidError UidGeneratorConfig :=
  let idLen := (cfg.EpochLen + cfg.SrvLen + cfg.CntLen) % 256
  if idLen > 64 then .error .tooLongID
  else
    let epochShift := (cfg.SrvLen + cfg.CntLen) % 256
    let maxSrv := (w64 (1 <<< cfg.SrvLen) + (2 ^ 64 - 1)) % 2 ^ 64
    let maxCnt := (w64 (1 <<< cfg.CntLen) + (2 ^ 64 - 1)) % 2 ^ 64
    let intervalLen :=
      if cfg.IntervalLen = 0 then (61 + 256 - cfg.EpochLen % 256) % 256 else cfg.IntervalLen
    let interval := toInt64 (w64 (1 <<< intervalLen))
    .ok { cfg with
      strLen := (idLen + 4) / 5
      epochShift := epochShift
      epochMask := w64 (((w64 (1 <<< cfg.EpochLen) + (2 ^ 64 - 1)) % 2 ^ 64) <<< epochShift)
      epochIota := w64 (1 <<< epochShift)
      maxSrv := maxSrv
      srvMask := w64 (maxSrv <<< cfg.CntLen)
      maxCnt := maxCnt
      cntMask := maxCnt
      IntervalLen := intervalLen
      interval := interval
      timeMask := i64wrap (interval - 1) }

/-- The runtime state of a UidGenerator: the updated configuration, the stored
epoch (already in shifted field position), the precomputed shifted server
field, and the sequence counter.  The start time is not stored: NextID below
receives the elapsed nanoseconds directly. -/
structure UidGenerator where
  cfg : UidGeneratorConfig
  epoch : Nat
  srvID : Nat
  cnt : Nat
deriving DecidableEq, Repr

/-- NewUidGenerator: runs update, rejects SrvID > int64(maxSrv) with
ErrTooBigServerID, and otherwise seeds epoch and cnt from the previous ID
masked by the epoch and counter masks.  srvID is uint64(SrvID << CntLen),
an int64 shift (with wraparound) reinterpreted as uint64, which equals
SrvID * 2^CntLen reduced modulo 2^64. -/
def NewUidGenerator (cfg : UidGeneratorConfig) (prevID : Nat) : Except UidError UidGenerator :=
  match update cfg with
  | .error e => .error e
  | .ok c =>
    if c.SrvID > toInt64 c.maxSrv then .error .tooBigServerID
    else .ok { cfg := c
               epoch := prevID &&& c.epochMask
               srvID := toUint64 (c.SrvID * 2 ^ c.CntLen)
               cnt := prevID &&& c.cntMask }

/-- The candidate epoch computed at the top of NextID from the elapsed
nanoseconds: the int64 value is arithmetically right-shifted by IntervalLen
(floor division), converted to uint64, shifted left by epochShift (wrapping)
and masked with epochMask. -/
def candidateEpoch (gen : UidGenerator) (sinceNs : Int) : Nat :=
  let since := Int.fdiv sinceNs ((2 : Int) ^ gen.cfg.IntervalLen)
  w64 (toUint64 since <<< gen.cfg.epochShift) &&& gen.cfg.epochMask

/-- NextID.  If the candidate epoch has not advanced past the stored epoch the
counter is incremented (uint64 wraparound); when it exceeds maxCnt the call
sleeps until the next interval boundary (a pure delay, not modelled), advances
the stored epoch by epochIota (wrapping) and resets the counter, otherwise the
new counter is kept.  If the candidate advanced, it is adopted and the counter
resets.  The result is epoch + srvID + cnt in uint64 arithmetic, returned
together with the new state. -/
def nextID (gen : UidGenerator) (sinceNs : Int) : Nat × UidGenerator :=
  let epoch := candidateEpoch gen sinceNs
  if epoch ≤ gen.epoch then
    let c := (gen.cnt + 1) % 2 ^ 64
    if c > gen.cfg.maxCnt then
      let g2 := { gen with epoch := (gen.epoch + gen.cfg.epochIota) % 2 ^ 64, cnt := 0 }
      (w64 (g2.epoch + g2.srvID + g2.cnt), g2)
    else
      let g2 := { gen with cnt := c }
      (w64 (g2.epoch + g2.srvID + g2.cnt), g2)
  else
    let g2 := { gen with epoch := epoch, cnt := 0 }
    (w64 (g2.epoch + g2.srvID + g2.cnt), g2)

/-- The sequence of IDs returned by consecutive NextID calls fed with the given
sequence of elapsed-nanosecond readings. -/
def issueIDs : UidGenerator → List Int → List Nat
  | _, [] => []
  | gen, t :: ts =>
    let p := nextID gen t
    p.1 :: issueIDs p.2 ts

/-- The byte values of the fixed alphabet "abcdefghijklmnopqrstuvwxyzABCDEF"
(32 letters, 5 bits per letter). -/
def letters : List Nat :=
  [97, 98, 99, 100, 101, 102, 103, 104, 105, 106, 107, 108, 109, 110, 111, 112,
   113, 114, 115, 116, 117, 118, 119, 120, 121, 122, 65, 66, 67, 68, 69, 70]

/-- The package decode table decodeLetters after init() has run, as a function
from byte value to table entry.  The Go array has 256 entries and starts out
zero-valued; the first init loop runs for i < len(letters), i.e. it writes the
sentinel 0xFF only to indices 0 through 31, and the second loop writes the
letter index i to entry letters[i].  Hence a byte that is some letters[i] maps
to i, a byte below 32 maps to 0xFF, and every other byte keeps the zero value. -/
def decodeLetters (b : Nat) : Nat :=
  match letters.findIdx? (fun c => c == b) with
  | some i => i
  | none => if b < 32 then 255 else 0

/-- The letter written for a 5-bit group: letters[d]. -/
def letterAt (d : Nat) : Nat := letters.getD d 0

/-- The digit loop of ToBase32: position j of the n-byte output receives the
5-bit group of weight 32^(n-1-j) of the ID (most significant group first);
groups of the ID beyond the n low ones are discarded. -/
def encodeDigits (id : Nat) (n : Nat) : List Nat :=
  (List.range n).map (fun j => id / 32 ^ (n - 1 - j) % 32)

/-- The bytes produced by the ToBase32 write loop for value id and length n. -/
def encodeLetters (id : Nat) (n : Nat) : List Nat :=
  (encodeDigits id n).map letterAt

/-- The truncation loop of ToBase32: while the low 5-bit group is zero, shift
the ID right by 5 and decrement the output index.  The Go loop has no other
exit condition, so it never terminates when the ID is 0; the fuel of 13 covers
every nonzero uint64 (at most 12 zero groups below the highest nonzero group),
so within that domain a none result means exactly that the Go loop diverges. -/
def stripLoop : Nat → Nat → Int → Option (Nat × Int)
  | 0, _, _ => none
  | fuel + 1, id, i => if id % 32 = 0 then stripLoop fuel (id / 32) (i - 1) else some (id, i)

/-- ToBase32.  The output index starts at strLen - 1; with TruncStr set, the
truncation loop first strips trailing zero groups (never terminating on ID 0,
modelled as none).  The Go code then allocates a byte slice of length i + 1,
which panics when i + 1 is negative (also modelled as none), and fills it from
the end with the alphabet letters of the 5-bit groups. -/
def toBase32 (gen : UidGenerator) (id : Nat) : Option (List Nat) :=
  if gen.cfg.TruncStr then
    match stripLoop 13 id ((gen.cfg.strLen : Int) - 1) with
    | none => none
    | some (id2, i) =>
      if i + 1 < 0 then none else some (encodeLetters id2 (i + 1).toNat)
  else some (encodeLetters id gen.cfg.strLen)

/-- The first loop of FromBase32: each byte is looked up in decodeLetters, the
sentinel 0xFF aborts with ErrInvalidStringUID, and otherwise the running value
is shifted left by 5 and the group added, in uint64 arithmetic. -/
def decodeLoop : List Nat → Nat → Except UidError Nat
  | [], id => .ok id
  | b :: rest, id =>
    let ch := decodeLetters b
    if ch = 255 then .error .invalidStringUID
    else decodeLoop rest ((id * 32 + ch) % 2 ^ 64)

/-- FromBase32.  The loop counter is an int8 compared against int8(len(str)):
when len(str) reduced modulo 256 exceeds 127 that bound is negative and the
decode loop body never runs, so the number of bytes read is len(str) % 256
when that is at most 127 and 0 otherwise.  After the decode loop, the value
is shifted left by 5 for every remaining position up to strLen (zero-group
padding for truncated strings). -/
def fromBase32 (gen : UidGenerator) (str : List Nat) : Except UidError Nat :=
  let m := if str.length % 256 ≤ 127 then str.length % 256 else 0
  match decodeLoop (str.take m) 0 with
  | .error e => .error e
  | .ok id => .ok (w64 (id * 32 ^ (gen.cfg.strLen - m)))

/-- FromUnix: uint64(t - EpochStart) * 1e9 >> IntervalLen << epochShift +
srvID, all in uint64 arithmetic (the multiplication-precedence operators
associate left to right in Go). -/
def FromUnix (gen : UidGenerator) (t : Int) : Nat :=
  w64 (w64 (w64 (toUint64 (t - gen.cfg.EpochStart) * 1000000000)
      >>> gen.cfg.IntervalLen <<< gen.cfg.epochShift) + gen.srvID)

/-- Unix: nsec = int64(id >> epochShift << IntervalLen), divided by 1e9 with
Go truncating division, rounded half-up on the sub-second remainder (Go %,
truncating), plus EpochStart. -/
def Unix (gen : UidGenerator) (id : Nat) : Int :=
  let nsec := toInt64 (w64 (id >>> gen.cfg.epochShift <<< gen.cfg.IntervalLen))
  let u := Int.tdiv nsec 1000000000
  (if Int.tmod nsec 1000000000 ≥ 500000000 then u + 1 else u) + gen.cfg.EpochStart

/-- ServerID: int64(id & srvMask) >> CntLen; the arithmetic right shift of an
int64 is floor division by the corresponding power of two. -/
def ServerID (gen : UidGenerator) (id : Nat) : Int :=
  Int.fdiv (toInt64 (id &&& gen.cfg.srvMask)) ((2 : Int) ^ gen.cfg.CntLen)

/-- Count: int64(id & cntMask). -/
def Count (gen : UidGenerator) (id : Nat) : Int :=
  toInt64 (id &&& gen.cfg.cntMask)

/-- The state invariant tying a generator to the raw configuration it was
built from: the widths fit in 64 bits, the server identity is in range, the
stored configuration is the update of the raw one, srvID is the shifted
server identity, the counter is within range, and the stored epoch is a
multiple of 2^epochShift below 2^64. -/
abbrev GenInv (c0 : UidGeneratorConfig) (g : UidGenerator) : Prop :=
  c0.EpochLen + c0.SrvLen + c0.CntLen ≤ 64 ∧
  0 ≤ c0.SrvID ∧ c0.SrvID < (2 : Int) ^ c0.SrvLen ∧
  update c0 = .ok g.cfg ∧
  g.srvID = c0.SrvID.toNat * 2 ^ c0.CntLen ∧
  g.cnt ≤ g.cfg.maxCnt ∧
  g.epoch % 2 ^ (c0.SrvLen + c0.CntLen) = 0 ∧
  g.epoch < 2 ^ 64

deriving instance DecidableEq for Except

/-- The sample Snowflake-like configuration of the package, with server
identity 1 (the spec example in section 8). -/
def snowCfgS : UidGeneratorConfig :=
  { EpochLen := 41, SrvLen := 10, CntLen := 12, IntervalLen := 20,
    EpochStart := 1288834974, SrvID := 1 }

/-- The generator built from snowCfgS with previous ID 0. -/
def snowGenS : UidGenerator :=
  match NewUidGenerator snowCfgS 0 with
  | .ok g => g
  | .error _ => { cfg := snowCfgS, epoch := 0, srvID := 0, cnt := 0 }

/-- The configuration used in the C1 counterexample: the whole 64-bit word is
the epoch field, so the stored epoch wraps around 2^64. -/
def cfg64CE : UidGeneratorConfig := { EpochLen := 64, IntervalLen := 1 }

/-- The Snowflake-like generator seeded from previous ID 4095, i.e. with the
counter field saturated. -/
def snowGenF : UidGenerator :=
  match NewUidGenerator snowCfgS 4095 with
  | .ok g => g
  | .error _ => { cfg := snowCfgS, epoch := 0, srvID := 0, cnt := 0 }

/-- The configuration for the C6 counterexample: server field of width 63
shifted by a counter width of 1, server identity 2^62. -/
def cfgC6CE : UidGeneratorConfig :=
  { EpochLen := 0, SrvLen := 63, CntLen := 1, IntervalLen := 1, SrvID := 4611686018427387904 }

/-- The configuration for the C3 counterexample: the uint8 sum of the widths
wraps from 320 to 64. -/
def cfg255CE : UidGeneratorConfig :=
  { EpochLen := 255, SrvLen := 1, CntLen := 64, IntervalLen := 1 }

/-- A configuration whose widths sum to 65, one past the limit. -/
def cfg65W : UidGeneratorConfig := { EpochLen := 30, SrvLen := 20, CntLen := 15 }

/-- The Snowflake-like configuration with an out-of-range server identity:
SrvLen = 10 admits identities up to 1023, but 1024 is configured. -/
def cfgW9 : UidGeneratorConfig :=
  { EpochLen := 41, SrvLen := 10, CntLen := 12, IntervalLen := 20, SrvID := 1024 }

/-- The Snowflake-like configuration with server identity -5. -/
def cfgW10 : UidGeneratorConfig :=
  { EpochLen := 41, SrvLen := 10, CntLen := 12, IntervalLen := 20, SrvID := -5 }

/-- The Snowflake-like configuration with string truncation enabled. -/
def snowCfgT : UidGeneratorConfig := { snowCfgS with TruncStr := true }

/-- The generator built from snowCfgT with previous ID 0. -/
def snowGenT : UidGenerator :=
  match NewUidGenerator snowCfgT 0 with
  | .ok g => g
  | .error _ => { cfg := snowCfgT, epoch := 0, srvID := 0, cnt := 0 }

/-- A small truncating configuration (widths 8 + 6 + 6, string length 4) for
the C7 counterexample. -/
def cfg20T : UidGeneratorConfig :=
  { EpochLen := 8, SrvLen := 6, CntLen := 6, IntervalLen := 1, TruncStr := true }

/-- The generator built from cfg20T with previous ID 0. -/
def gen20T : UidGenerator :=
  match NewUidGenerator cfg20T 0 with
  | .ok g => g
  | .error _ => { cfg := cfg20T, epoch := 0, srvID := 0, cnt := 0 }

/-- The sample configuration exported by the package (var SnowflakeConfig):
field lengths and epoch start of Twitter Snowflake, millisecond-scale
intervals of 2^20 ns. -/
def SnowflakeConfig : UidGeneratorConfig :=
  { EpochLen := 41, SrvLen := 10, CntLen := 12, EpochStart := 1288834974, IntervalLen := 20 }

/-- The generator built from SnowflakeConfig with previous ID 0. -/
def snowGen0 : UidGenerator :=
  match NewUidGenerator SnowflakeConfig 0 with
  | .ok g => g
  | .error _ => { cfg := SnowflakeConfig, epoch := 0, srvID := 0, cnt := 0 }

theorem land_mask (x a b : Nat) :
    x &&& ((2 ^ a - 1) * 2 ^ b) = x / 2 ^ b % 2 ^ a * 2 ^ b := by
  apply Nat.eq_of_testBit_eq
  intro i
  rw [Nat.testBit_land,
      show (2 ^ a - 1) * 2 ^ b = (2 ^ a - 1) <<< b from (Nat.shiftLeft_eq _ _).symm,
      show x / 2 ^ b % 2 ^ a * 2 ^ b = (x / 2 ^ b % 2 ^ a) <<< b from (Nat.shiftLeft_eq _ _).symm,
      Nat.testBit_shiftLeft, Nat.testBit_shiftLeft, Nat.testBit_two_pow_sub_one,
      Nat.testBit_mod_two_pow,
      show x / 2 ^ b = x >>> b from (Nat.shiftRight_eq_div_pow _ _).symm,
      Nat.testBit_shiftRight]
  by_cases h : b ≤ i
  · have hgi : i ≥ b := h
    rw [Nat.add_sub_cancel' h, decide_eq_true hgi, Bool.true_and, Bool.true_and]
    exact Bool.and_comm _ _
  · have hgi : ¬ (i ≥ b) := h
    simp [hgi]

theorem land_low (x a : Nat) : x &&& (2 ^ a - 1) = x % 2 ^ a := by
  have h := land_mask x a 0
  simp only [pow_zero, Nat.div_one, mul_one] at h
  exact h

theorem u64_pred_pow {e : Nat} (he : e ≤ 64) :
    (w64 (1 <<< e) + (2 ^ 64 - 1)) % 2 ^ 64 = 2 ^ e - 1 := by
  rw [w64, Nat.shiftLeft_eq, one_mul]
  rcases Nat.lt_or_ge e 64 with h | h
  · have h1 : 2 ^ e < 2 ^ 64 := Nat.pow_lt_pow_right (by norm_num) h
    have h0 : 1 ≤ 2 ^ e := Nat.one_le_two_pow
    rw [Nat.mod_eq_of_lt h1]
    have h2 : 2 ^ e + (2 ^ 64 - 1) = (2 ^ e - 1) + 2 ^ 64 := by omega
    rw [h2, Nat.add_mod_right, Nat.mod_eq_of_lt (by omega)]
  · have he64 : e = 64 := le_antisymm he h
    subst he64
    norm_num

theorem update_fields {cfg c : UidGeneratorConfig}
    (h64 : cfg.EpochLen + cfg.SrvLen + cfg.CntLen ≤ 64)
    (h : update cfg = .ok c) :
    c.EpochLen = cfg.EpochLen ∧ c.SrvLen = cfg.SrvLen ∧ c.CntLen = cfg.CntLen ∧
    c.TruncStr = cfg.TruncStr ∧ c.EpochStart = cfg.EpochStart ∧ c.SrvID = cfg.SrvID ∧
    c.strLen = (cfg.EpochLen + cfg.SrvLen + cfg.CntLen + 4) / 5 ∧
    c.epochShift = cfg.SrvLen + cfg.CntLen ∧
    c.epochMask = (2 ^ cfg.EpochLen - 1) * 2 ^ (cfg.SrvLen + cfg.CntLen) ∧
    c.epochIota = 2 ^ (cfg.SrvLen + cfg.CntLen) % 2 ^ 64 ∧
    c.maxSrv = 2 ^ cfg.SrvLen - 1 ∧
    c.srvMask = (2 ^ cfg.SrvLen - 1) * 2 ^ cfg.CntLen ∧
    c.maxCnt = 2 ^ cfg.CntLen - 1 ∧
    c.cntMask = 2 ^ cfg.CntLen - 1 := by
  have hmod : (cfg.EpochLen + cfg.SrvLen + cfg.CntLen) % 256 = cfg.EpochLen + cfg.SrvLen + cfg.CntLen :=
    Nat.mod_eq_of_lt (by omega)
  have hSC : (cfg.SrvLen + cfg.CntLen) % 256 = cfg.SrvLen + cfg.CntLen :=
    Nat.mod_eq_of_lt (by omega)
  rw [update] at h
  simp only [hmod] at h
  rw [if_neg (by omega)] at h
  simp only [hSC] at h
  have hE : cfg.EpochLen ≤ 64 := by omega
  have hS : cfg.SrvLen ≤ 64 := by omega
  have hC : cfg.CntLen ≤ 64 := by omega
  have hmaxSrv := u64_pred_pow hS
  have hmaxCnt := u64_pred_pow hC
  have hmask0 := u64_pred_pow hE
  have h1E : 1 ≤ 2 ^ cfg.EpochLen := Nat.one_le_two_pow
  have h1S : 1 ≤ 2 ^ cfg.SrvLen := Nat.one_le_two_pow
  have h1SC : 1 ≤ 2 ^ (cfg.SrvLen + cfg.CntLen) := Nat.one_le_two_pow
  have h1C : 1 ≤ 2 ^ cfg.CntLen := Nat.one_le_two_pow
  injection h with h
  subst h
  dsimp only
  refine ⟨rfl, rfl, rfl, rfl, rfl, rfl, rfl, rfl, ?_, ?_, hmaxSrv, ?_, hmaxCnt, hmaxCnt⟩
  · rw [hmask0, w64, Nat.shiftLeft_eq]
    apply Nat.mod_eq_of_lt
    have h2 : 2 ^ cfg.EpochLen * 2 ^ (cfg.SrvLen + cfg.CntLen) ≤ 2 ^ 64 := by
      rw [← pow_add]
      exact Nat.pow_le_pow_right (by norm_num) (by omega)
    have h3 : 1 * 2 ^ (cfg.SrvLen + cfg.CntLen) ≤ 2 ^ cfg.EpochLen * 2 ^ (cfg.SrvLen + cfg.CntLen) :=
      Nat.mul_le_mul_right _ h1E
    have h5 : (2 ^ cfg.EpochLen - 1) * 2 ^ (cfg.SrvLen + cfg.CntLen)
        = 2 ^ cfg.EpochLen * 2 ^ (cfg.SrvLen + cfg.CntLen) - 1 * 2 ^ (cfg.SrvLen + cfg.CntLen) := by
      rw [← Nat.sub_mul]
    omega
  · rw [w64, Nat.shiftLeft_eq, one_mul]
  · rw [hmaxSrv, w64, Nat.shiftLeft_eq]
    apply Nat.mod_eq_of_lt
    have h2 : 2 ^ cfg.SrvLen * 2 ^ cfg.CntLen ≤ 2 ^ 64 := by
      rw [← pow_add]
      exact Nat.pow_le_pow_right (by norm_num) (by omega)
    have h3 : 1 * 2 ^ cfg.CntLen ≤ 2 ^ cfg.SrvLen * 2 ^ cfg.CntLen :=
      Nat.mul_le_mul_right _ h1S
    have h5 : (2 ^ cfg.SrvLen - 1) * 2 ^ cfg.CntLen
        = 2 ^ cfg.SrvLen * 2 ^ cfg.CntLen - 1 * 2 ^ cfg.CntLen := by
      rw [← Nat.sub_mul]
    omega

/-- A field mask of width a shifted by b fits below 2^c when a + b is at most c. -/
theorem mask_lt_two_pow {a b c : Nat} (h : a + b ≤ c) : (2 ^ a - 1) * 2 ^ b < 2 ^ c := by
  have h1 : 1 ≤ (2 : Nat) ^ a := Nat.one_le_two_pow
  have h2 : 2 ^ a * 2 ^ b ≤ 2 ^ c := by
    rw [← pow_add]
    exact Nat.pow_le_pow_right (by norm_num) h
  have h3 : 1 * 2 ^ b ≤ 2 ^ a * 2 ^ b := Nat.mul_le_mul_right _ h1
  have h4 : 1 ≤ (2 : Nat) ^ b := Nat.one_le_two_pow
  have h5 : (2 ^ a - 1) * 2 ^ b = 2 ^ a * 2 ^ b - 1 * 2 ^ b := by rw [← Nat.sub_mul]
  omega

/-- Small-value case of toInt64: a uint64 value below 2^63 is its own int64
reinterpretation. -/
theorem toInt64_of_lt {n : Nat} (h : n < 2 ^ 63) : toInt64 n = (n : Int) := by
  have h64 : n < 2 ^ 64 := lt_trans h (by norm_num)
  rw [toInt64, Nat.mod_eq_of_lt h64, if_pos (by exact_mod_cast h)]

/-- Nonnegative small-value case of toUint64. -/
theorem toUint64_of_lt {x : Int} (h0 : 0 ≤ x) (h : x < (2 : Int) ^ 64) :
    toUint64 x = x.toNat := by
  rw [toUint64, Int.emod_eq_of_lt h0 h]

/-- The candidate epoch is bounded by the epoch mask and is a multiple of
2^epochShift, for a configuration produced by update from widths summing to
at most 64. -/
theorem candidateEpoch_spec {c0 : UidGeneratorConfig} {g : UidGenerator}
    (h64 : c0.EpochLen + c0.SrvLen + c0.CntLen ≤ 64)
    (hu : update c0 = .ok g.cfg) (t : Int) :
    candidateEpoch g t ≤ (2 ^ c0.EpochLen - 1) * 2 ^ (c0.SrvLen + c0.CntLen) ∧
    candidateEpoch g t % 2 ^ (c0.SrvLen + c0.CntLen) = 0 := by
  obtain ⟨-, -, -, -, -, -, -, -, hmask, -, -, -, -, -⟩ := update_fields h64 hu
  rw [candidateEpoch, hmask, land_mask]
  constructor
  · apply Nat.mul_le_mul_right
    have hp : 0 < 2 ^ c0.EpochLen := Nat.pos_pow_of_pos _ (by norm_num)
    have := Nat.mod_lt (w64 (toUint64 (Int.fdiv t ((2 : Int) ^ g.cfg.IntervalLen))
        <<< g.cfg.epochShift) / 2 ^ (c0.SrvLen + c0.CntLen)) hp
    omega
  · exact Nat.mul_mod_left _ _

/-- NewUidGenerator establishes the state invariant whenever the widths sum
to at most 64 and the server identity is in range. -/
theorem genInv_init {c0 : UidGeneratorConfig} {g : UidGenerator} {prevID : Nat}
    (h64 : c0.EpochLen + c0.SrvLen + c0.CntLen ≤ 64)
    (hs0 : 0 ≤ c0.SrvID) (hs1 : c0.SrvID < (2 : Int) ^ c0.SrvLen)
    (h : NewUidGenerator c0 prevID = .ok g) : GenInv c0 g := by
  rw [NewUidGenerator] at h
  rcases hu : update c0 with e | c
  · rw [hu] at h
    exact absurd h (by simp)
  rw [hu] at h
  dsimp only at h
  obtain ⟨-, -, hC, -, -, hSrvID, -, -, hmaskE, -, -, -, hmaxCnt, hcntMask⟩ :=
    update_fields h64 hu
  by_cases hbig : c.SrvID > toInt64 c.maxSrv
  · rw [if_pos hbig] at h
    exact absurd h (by simp)
  rw [if_neg hbig] at h
  injection h with h
  subst h
  have hVlt : c0.SrvID.toNat < 2 ^ c0.SrvLen := by
    have hcast : ((c0.SrvID.toNat : Int)) = c0.SrvID := Int.toNat_of_nonneg hs0
    have : (c0.SrvID.toNat : Int) < ((2 ^ c0.SrvLen : Nat) : Int) := by
      rw [hcast]
      push_cast
      exact hs1
    exact_mod_cast this
  have hsrv : toUint64 (c.SrvID * 2 ^ c.CntLen) = c0.SrvID.toNat * 2 ^ c0.CntLen := by
    rw [hSrvID, hC]
    have hx : c0.SrvID * (2 : Int) ^ c0.CntLen = ((c0.SrvID.toNat * 2 ^ c0.CntLen : Nat) : Int) := by
      push_cast [Int.toNat_of_nonneg hs0]
      ring
    rw [hx, toUint64]
    have hlt : ((c0.SrvID.toNat * 2 ^ c0.CntLen : Nat) : Int) < (2 : Int) ^ 64 := by
      have hn : c0.SrvID.toNat * 2 ^ c0.CntLen < 2 ^ 64 := by
        have h1 : c0.SrvID.toNat * 2 ^ c0.CntLen ≤ (2 ^ c0.SrvLen - 1) * 2 ^ c0.CntLen :=
          Nat.mul_le_mul_right _ (by omega)
        have h2 : (2 ^ c0.SrvLen - 1) * 2 ^ c0.CntLen < 2 ^ 64 :=
          mask_lt_two_pow (by omega)
        omega
      exact_mod_cast hn
    rw [Int.emod_eq_of_lt (by positivity) hlt, Int.toNat_natCast]
  refine ⟨h64, hs0, hs1, hu, hsrv, ?_, ?_, ?_⟩
  · show prevID &&& c.cntMask ≤ c.maxCnt
    rw [hcntMask, hmaxCnt]
    exact Nat.and_le_right
  · show (prevID &&& c.epochMask) % 2 ^ (c0.SrvLen + c0.CntLen) = 0
    rw [hmaskE, land_mask]
    exact Nat.mul_mod_left _ _
  · show prevID &&& c.epochMask < 2 ^ 64
    calc prevID &&& c.epochMask ≤ c.epochMask := Nat.and_le_right
      _ < 2 ^ 64 := by
        rw [hmaskE]
        exact mask_lt_two_pow (by omega)

/-- The branch of NextID taken on counter exhaustion. -/
theorem nextID_eq_overflow {g : UidGenerator} {t : Int}
    (hc : candidateEpoch g t ≤ g.epoch)
    (hx : (g.cnt + 1) % 2 ^ 64 > g.cfg.maxCnt) :
    nextID g t = (w64 ((g.epoch + g.cfg.epochIota) % 2 ^ 64 + g.srvID + 0),
      { g with epoch := (g.epoch + g.cfg.epochIota) % 2 ^ 64, cnt := 0 }) := by
  rw [nextID, if_pos hc, if_pos hx]

/-- The branch of NextID taken when the clock has not advanced and the counter
has room. -/
theorem nextID_eq_incr {g : UidGenerator} {t : Int}
    (hc : candidateEpoch g t ≤ g.epoch)
    (hx : ¬ (g.cnt + 1) % 2 ^ 64 > g.cfg.maxCnt) :
    nextID g t = (w64 (g.epoch + g.srvID + (g.cnt + 1) % 2 ^ 64),
      { g with cnt := (g.cnt + 1) % 2 ^ 64 }) := by
  rw [nextID, if_pos hc, if_neg hx]

/-- The branch of NextID taken when the candidate epoch advanced. -/
theorem nextID_eq_adopt {g : UidGenerator} {t : Int}
    (hc : ¬ candidateEpoch g t ≤ g.epoch) :
    nextID g t = (w64 (candidateEpoch g t + g.srvID + 0),
      { g with epoch := candidateEpoch g t, cnt := 0 }) := by
  rw [nextID, if_neg hc]

/-- NextID preserves the state invariant, never changes the configuration or
the server field, and returns exactly the uint64 composition of its new
state. -/
theorem nextID_spec {c0 : UidGeneratorConfig} {g : UidGenerator}
    (hI : GenInv c0 g) (t : Int) :
    GenInv c0 (nextID g t).2 ∧
    (nextID g t).2.cfg = g.cfg ∧
    (nextID g t).2.srvID = g.srvID ∧
    (nextID g t).1 = ((nextID g t).2.epoch + (nextID g t).2.srvID + (nextID g t).2.cnt) % 2 ^ 64 := by
  obtain ⟨h64, hs0, hs1, hu, hsrv, hcnt, halign, heplt⟩ := hI
  have hSC : c0.SrvLen + c0.CntLen ≤ 64 := by omega
  have hdvd : (2 : Nat) ^ (c0.SrvLen + c0.CntLen) ∣ 2 ^ 64 := pow_dvd_pow 2 hSC
  obtain ⟨-, -, -, -, -, -, -, -, -, hiota, -, -, -, -⟩ := update_fields h64 hu
  by_cases hc : candidateEpoch g t ≤ g.epoch
  · by_cases hx : (g.cnt + 1) % 2 ^ 64 > g.cfg.maxCnt
    · rw [nextID_eq_overflow hc hx]
      refine ⟨⟨h64, hs0, hs1, hu, hsrv, Nat.zero_le _, ?_, ?_⟩, rfl, rfl, rfl⟩
      · show (g.epoch + g.cfg.epochIota) % 2 ^ 64 % 2 ^ (c0.SrvLen + c0.CntLen) = 0
        rw [Nat.mod_mod_of_dvd _ hdvd, Nat.add_mod, halign, hiota,
            Nat.mod_mod_of_dvd _ hdvd, Nat.mod_self]
        simp
      · exact Nat.mod_lt _ (by norm_num)
    · rw [nextID_eq_incr hc hx]
      push_neg at hx
      exact ⟨⟨h64, hs0, hs1, hu, hsrv, hx, halign, heplt⟩, rfl, rfl, rfl⟩
  · rw [nextID_eq_adopt hc]
    obtain ⟨hcb, hca⟩ := candidateEpoch_spec h64 hu t
    refine ⟨⟨h64, hs0, hs1, hu, hsrv, Nat.zero_le _, hca, ?_⟩, rfl, rfl, rfl⟩
    exact lt_of_le_of_lt hcb (mask_lt_two_pow (by omega))

/-- C1, amended.  The claim as stated is false: with EpochLen = 64 the stored
epoch can wrap around 2^64 (see the counterexample), so the returned IDs can
decrease.  Amended claim: for a generator satisfying the state invariant whose
epoch quantum is nonzero (SrvLen + CntLen at most 63) and whose stored epoch
still has headroom (epoch + epochIota + srvID below 2^64), one NextID call
with an arbitrary clock reading returns an ID that is at least the composition
epoch + srvID + cnt of the current state (which is the previously returned ID,
by the data-model invariant), the returned ID is again the exact composition
of the new state, and the state invariant is preserved; chaining this step
yields a non-decreasing ID sequence as long as the headroom condition holds at
every step. -/
theorem claim1_nextID_monotone {c0 : UidGeneratorConfig} {g : UidGenerator} (t : Int)
    (hI : GenInv c0 g)
    (hshift : c0.SrvLen + c0.CntLen ≤ 63)
    (hroom : g.epoch + g.cfg.epochIota + g.srvID < 2 ^ 64) :
    g.epoch + g.srvID + g.cnt ≤ (nextID g t).1 ∧
    (nextID g t).1 = (nextID g t).2.epoch + (nextID g t).2.srvID + (nextID g t).2.cnt ∧
    GenInv c0 (nextID g t).2 := by
  have hInv2 := (nextID_spec hI t).1
  obtain ⟨h64, hs0, hs1, hu, hsrv, hcnt, halign, heplt⟩ := hI
  obtain ⟨-, -, -, -, -, -, -, -, -, hiota, -, -, hmaxCnt, -⟩ := update_fields h64 hu
  have hiota2 : g.cfg.epochIota = 2 ^ (c0.SrvLen + c0.CntLen) := by
    rw [hiota, Nat.mod_eq_of_lt (Nat.pow_lt_pow_right (by norm_num) (by omega))]
  have hVlt : c0.SrvID.toNat < 2 ^ c0.SrvLen := by
    have hcast : ((c0.SrvID.toNat : Int)) = c0.SrvID := Int.toNat_of_nonneg hs0
    have hx : (c0.SrvID.toNat : Int) < ((2 ^ c0.SrvLen : Nat) : Int) := by
      rw [hcast]
      push_cast
      exact hs1
    exact_mod_cast hx
  have hsrvlt : g.srvID < 2 ^ (c0.SrvLen + c0.CntLen) := by
    rw [hsrv]
    calc c0.SrvID.toNat * 2 ^ c0.CntLen ≤ (2 ^ c0.SrvLen - 1) * 2 ^ c0.CntLen :=
          Nat.mul_le_mul_right _ (by omega)
      _ < 2 ^ (c0.SrvLen + c0.CntLen) := mask_lt_two_pow (le_refl _)
  have hcntlt : g.cnt < 2 ^ c0.CntLen := by
    rw [hmaxCnt] at hcnt
    have h1 : 1 ≤ (2 : Nat) ^ c0.CntLen := Nat.one_le_two_pow
    omega
  have hCleS : (2 : Nat) ^ c0.CntLen ≤ 2 ^ (c0.SrvLen + c0.CntLen) :=
    Nat.pow_le_pow_right (by norm_num) (by omega)
  rw [hiota2] at hroom
  by_cases hc : candidateEpoch g t ≤ g.epoch
  · by_cases hx : (g.cnt + 1) % 2 ^ 64 > g.cfg.maxCnt
    · rw [nextID_eq_overflow hc hx] at hInv2 ⊢
      have he2 : (g.epoch + g.cfg.epochIota) % 2 ^ 64 = g.epoch + 2 ^ (c0.SrvLen + c0.CntLen) := by
        rw [hiota2, Nat.mod_eq_of_lt (by omega)]
      refine ⟨?_, ?_, hInv2⟩
      · show _ ≤ w64 ((g.epoch + g.cfg.epochIota) % 2 ^ 64 + g.srvID + 0)
        rw [he2, w64, Nat.mod_eq_of_lt (by omega)]
        omega
      · show w64 ((g.epoch + g.cfg.epochIota) % 2 ^ 64 + g.srvID + 0) = _
        rw [he2, w64, Nat.mod_eq_of_lt (by omega)]
    · rw [nextID_eq_incr hc hx] at hInv2 ⊢
      have hc1 : (g.cnt + 1) % 2 ^ 64 = g.cnt + 1 :=
        Nat.mod_eq_of_lt (by omega)
      refine ⟨?_, ?_, hInv2⟩
      · show _ ≤ w64 (g.epoch + g.srvID + (g.cnt + 1) % 2 ^ 64)
        push_neg at hx
        rw [hmaxCnt, hc1] at hx
        rw [hc1, w64, Nat.mod_eq_of_lt (by omega)]
        omega
      · show w64 (g.epoch + g.srvID + (g.cnt + 1) % 2 ^ 64) = _
        push_neg at hx
        rw [hmaxCnt, hc1] at hx
        rw [hc1, w64, Nat.mod_eq_of_lt (by omega)]
  · rw [nextID_eq_adopt hc] at hInv2 ⊢
    push_neg at hc
    obtain ⟨hcb, hca⟩ := candidateEpoch_spec h64 hu t
    have hstep : g.epoch + 2 ^ (c0.SrvLen + c0.CntLen) ≤ candidateEpoch g t := by
      have hd1 : 2 ^ (c0.SrvLen + c0.CntLen) ∣ candidateEpoch g t := Nat.dvd_of_mod_eq_zero hca
      have hd2 : 2 ^ (c0.SrvLen + c0.CntLen) ∣ g.epoch := Nat.dvd_of_mod_eq_zero halign
      have hd3 : 2 ^ (c0.SrvLen + c0.CntLen) ∣ (candidateEpoch g t - g.epoch) := Nat.dvd_sub' hd1 hd2
      have hd4 : 2 ^ (c0.SrvLen + c0.CntLen) ≤ candidateEpoch g t - g.epoch :=
        Nat.le_of_dvd (by omega) hd3
      omega
    have hcand64 : candidateEpoch g t + g.srvID < 2 ^ 64 := by
      have h1 : (2 ^ c0.EpochLen - 1) * 2 ^ (c0.SrvLen + c0.CntLen)
          ≤ 2 ^ 64 - 2 ^ (c0.SrvLen + c0.CntLen) := by
        have h2 : 2 ^ c0.EpochLen * 2 ^ (c0.SrvLen + c0.CntLen) ≤ 2 ^ 64 := by
          rw [← pow_add]
          exact Nat.pow_le_pow_right (by norm_num) (by omega)
        have h3 : (2 ^ c0.EpochLen - 1) * 2 ^ (c0.SrvLen + c0.CntLen)
            = 2 ^ c0.EpochLen * 2 ^ (c0.SrvLen + c0.CntLen) - 1 * 2 ^ (c0.SrvLen + c0.CntLen) := by
          rw [← Nat.sub_mul]
        have h4 : 1 ≤ (2 : Nat) ^ c0.EpochLen := Nat.one_le_two_pow
        omega
      omega
    refine ⟨?_, ?_, hInv2⟩
    · show _ ≤ w64 (candidateEpoch g t + g.srvID + 0)
      rw [w64, Nat.mod_eq_of_lt (by omega)]
      omega
    · show w64 (candidateEpoch g t + g.srvID + 0) = _
      rw [w64, Nat.mod_eq_of_lt (by omega)]

/-- Witness for the amended C1 at a concrete input: the Snowflake-like
generator in its initial state, clock reading 2^21 nanoseconds. -/
theorem claim1_witness :
    snowGenS.epoch + snowGenS.srvID + snowGenS.cnt ≤ (nextID snowGenS 2097152).1 ∧
    (nextID snowGenS 2097152).1 =
      (nextID snowGenS 2097152).2.epoch + (nextID snowGenS 2097152).2.srvID +
        (nextID snowGenS 2097152).2.cnt ∧
    GenInv snowCfgS (nextID snowGenS 2097152).2 :=
  claim1_nextID_monotone 2097152 (by decide) (by decide) (by decide)

/-- Counterexample to C1 as stated.  With EpochLen = 64, SrvLen = CntLen = 0
and a clock reading of -1 nanoseconds (the clock standing before the epoch
start, which the claim explicitly allows), the first call returns 2^64 - 1 and
the second call wraps the stored epoch around 2^64 and returns 0: the returned
sequence strictly decreases. -/
theorem claim1_counterexample :
    (NewUidGenerator cfg64CE 0).map (fun g => issueIDs g [-1, -1]) =
      .ok [18446744073709551615, 0] ∧ (0 : Nat) < 18446744073709551615 := by
  exact ⟨by decide, by norm_num⟩

/-- C5: on a NextID call whose candidate epoch does not exceed the stored one
and whose incremented counter exceeds maxCnt, the stored epoch advances by
exactly one epochIota (in uint64 arithmetic), the counter resets to 0, the
returned ID is the advanced epoch plus the server field with counter field 0,
and its epoch bits coincide with the advanced stored epoch.  Together with
the counter-range invariant this bounds issuance to 2^CntLen IDs per epoch
tick.  (The call also sleeps until the next interval boundary; the sleep does
not influence the returned value and is not modelled.) -/
theorem claim5_counter_overflow (c0 : UidGeneratorConfig) {g : UidGenerator} (t : Int)
    (hI : GenInv c0 g)
    (hc : candidateEpoch g t ≤ g.epoch)
    (hx : (g.cnt + 1) % 2 ^ 64 > g.cfg.maxCnt) :
    (nextID g t).2.epoch = (g.epoch + g.cfg.epochIota) % 2 ^ 64 ∧
    (nextID g t).2.cnt = 0 ∧
    (nextID g t).1 = (g.epoch + g.cfg.epochIota + g.srvID) % 2 ^ 64 ∧
    (nextID g t).1 >>> g.cfg.epochShift = (nextID g t).2.epoch >>> g.cfg.epochShift ∧
    Count g ((nextID g t).1) = 0 := by
  obtain ⟨h64, hs0, hs1, hu, hsrv, hcnt, halign, heplt⟩ := hI
  obtain ⟨-, -, -, -, -, -, -, hshiftEq, -, hiota, -, -, hmaxCnt, hcntMask⟩ :=
    update_fields h64 hu
  have hSC : c0.SrvLen + c0.CntLen ≤ 64 := by omega
  have hdvd : (2 : Nat) ^ (c0.SrvLen + c0.CntLen) ∣ 2 ^ 64 := pow_dvd_pow 2 hSC
  have hdvdC : (2 : Nat) ^ c0.CntLen ∣ 2 ^ 64 := pow_dvd_pow 2 (by omega)
  have hdvdCS : (2 : Nat) ^ c0.CntLen ∣ 2 ^ (c0.SrvLen + c0.CntLen) := pow_dvd_pow 2 (by omega)
  have h2Spos : 0 < (2 : Nat) ^ (c0.SrvLen + c0.CntLen) := Nat.pos_pow_of_pos _ (by norm_num)
  have h2Sle : (2 : Nat) ^ (c0.SrvLen + c0.CntLen) ≤ 2 ^ 64 :=
    Nat.pow_le_pow_right (by norm_num) hSC
  have hVlt : c0.SrvID.toNat < 2 ^ c0.SrvLen := by
    have hcast : ((c0.SrvID.toNat : Int)) = c0.SrvID := Int.toNat_of_nonneg hs0
    have hlt : (c0.SrvID.toNat : Int) < ((2 ^ c0.SrvLen : Nat) : Int) := by
      rw [hcast]
      push_cast
      exact hs1
    exact_mod_cast hlt
  have hsrvlt : g.srvID < 2 ^ (c0.SrvLen + c0.CntLen) := by
    rw [hsrv]
    calc c0.SrvID.toNat * 2 ^ c0.CntLen ≤ (2 ^ c0.SrvLen - 1) * 2 ^ c0.CntLen :=
          Nat.mul_le_mul_right _ (by omega)
      _ < 2 ^ (c0.SrvLen + c0.CntLen) := mask_lt_two_pow (le_refl _)
  have he2align : (g.epoch + g.cfg.epochIota) % 2 ^ 64 % 2 ^ (c0.SrvLen + c0.CntLen) = 0 := by
    rw [Nat.mod_mod_of_dvd _ hdvd, Nat.add_mod, halign, hiota,
        Nat.mod_mod_of_dvd _ hdvd, Nat.mod_self]
    simp
  have hele : (g.epoch + g.cfg.epochIota) % 2 ^ 64 ≤ 2 ^ 64 - 2 ^ (c0.SrvLen + c0.CntLen) := by
    have he2lt : (g.epoch + g.cfg.epochIota) % 2 ^ 64 < 2 ^ 64 := Nat.mod_lt _ (by norm_num)
    have hd1 : 2 ^ (c0.SrvLen + c0.CntLen) ∣ ((g.epoch + g.cfg.epochIota) % 2 ^ 64) :=
      Nat.dvd_of_mod_eq_zero he2align
    have hd2 : 2 ^ (c0.SrvLen + c0.CntLen) ∣ (2 ^ 64 - (g.epoch + g.cfg.epochIota) % 2 ^ 64) :=
      Nat.dvd_sub' hdvd hd1
    have hd3 : 2 ^ (c0.SrvLen + c0.CntLen) ≤ 2 ^ 64 - (g.epoch + g.cfg.epochIota) % 2 ^ 64 :=
      Nat.le_of_dvd (by omega) hd2
    omega
  have hlt2 : (g.epoch + g.cfg.epochIota) % 2 ^ 64 + g.srvID < 2 ^ 64 := by omega
  have hmain4 : w64 ((g.epoch + g.cfg.epochIota) % 2 ^ 64 + g.srvID + 0) >>> g.cfg.epochShift
      = ((g.epoch + g.cfg.epochIota) % 2 ^ 64) >>> g.cfg.epochShift := by
    obtain ⟨q, hq⟩ := Nat.dvd_of_mod_eq_zero he2align
    rw [Nat.add_zero, w64, Nat.mod_eq_of_lt hlt2, hshiftEq, Nat.shiftRight_eq_div_pow,
        Nat.shiftRight_eq_div_pow, hq, Nat.mul_add_div h2Spos,
        Nat.div_eq_of_lt hsrvlt, Nat.mul_div_cancel_left _ h2Spos]
    omega
  have hmain5 : Count g (w64 ((g.epoch + g.cfg.epochIota) % 2 ^ 64 + g.srvID + 0)) = 0 := by
    have h1 : g.epoch % 2 ^ c0.CntLen = 0 :=
      Nat.dvd_iff_mod_eq_zero.1 (dvd_trans hdvdCS (Nat.dvd_of_mod_eq_zero halign))
    have h2 : g.cfg.epochIota % 2 ^ c0.CntLen = 0 := by
      rw [hiota, Nat.mod_mod_of_dvd _ hdvdC]
      exact Nat.dvd_iff_mod_eq_zero.1 hdvdCS
    have h3 : g.srvID % 2 ^ c0.CntLen = 0 := by
      rw [hsrv]
      exact Nat.mul_mod_left _ _
    rw [Count, hcntMask, land_low, Nat.add_zero, w64, Nat.mod_add_mod,
        Nat.mod_mod_of_dvd _ hdvdC, Nat.add_mod, Nat.add_mod g.epoch, h1, h2, h3]
    have hz : (((0 + 0) % 2 ^ c0.CntLen + 0) % 2 ^ c0.CntLen) = 0 := by simp
    rw [hz, toInt64_of_lt (by norm_num)]
    rfl
  have hmain3 : w64 ((g.epoch + g.cfg.epochIota) % 2 ^ 64 + g.srvID + 0)
      = (g.epoch + g.cfg.epochIota + g.srvID) % 2 ^ 64 := by
    rw [Nat.add_zero, w64, Nat.mod_add_mod]
  rw [nextID_eq_overflow hc hx]
  exact ⟨rfl, rfl, hmain3, hmain4, hmain5⟩

/-- Witness for C5 at a concrete input: the seeded Snowflake-like generator
with saturated counter, clock reading 0. -/
theorem claim5_witness :
    (nextID snowGenF 0).2.epoch = (snowGenF.epoch + snowGenF.cfg.epochIota) % 2 ^ 64 ∧
    (nextID snowGenF 0).2.cnt = 0 ∧
    (nextID snowGenF 0).1 = (snowGenF.epoch + snowGenF.cfg.epochIota + snowGenF.srvID) % 2 ^ 64 ∧
    (nextID snowGenF 0).1 >>> snowGenF.cfg.epochShift =
      (nextID snowGenF 0).2.epoch >>> snowGenF.cfg.epochShift ∧
    Count snowGenF ((nextID snowGenF 0).1) = 0 :=
  claim5_counter_overflow snowCfgS 0 (by decide) (by decide) (by decide)

/-- update succeeds exactly when the uint8 length check passes. -/
theorem update_isOk (c0 : UidGeneratorConfig)
    (h : (c0.EpochLen + c0.SrvLen + c0.CntLen) % 256 ≤ 64) :
    ∃ c, update c0 = .ok c := by
  rw [update]
  rw [if_neg (by omega)]
  exact ⟨_, rfl⟩

/-- An ID composed as aligned epoch + shifted server field + small counter has
the configured server identity in its server field, provided the shifted
server field has the int64 sign bit clear. -/
theorem serverID_formula (c0 : UidGeneratorConfig) {g : UidGenerator}
    (hI : GenInv c0 g)
    (hsrv63 : c0.SrvID.toNat * 2 ^ c0.CntLen < 2 ^ 63)
    {e cn : Nat} (he : e % 2 ^ (c0.SrvLen + c0.CntLen) = 0) (hcn : cn < 2 ^ c0.CntLen) :
    ServerID g ((e + g.srvID + cn) % 2 ^ 64) = c0.SrvID := by
  obtain ⟨h64, hs0, hs1, hu, hsrv, -, -, -⟩ := hI
  obtain ⟨-, -, hCnt, -, -, -, -, -, -, -, -, hsrvMask, -, -⟩ := update_fields h64 hu
  have hSC : c0.SrvLen + c0.CntLen ≤ 64 := by omega
  have hdvd : (2 : Nat) ^ (c0.SrvLen + c0.CntLen) ∣ 2 ^ 64 := pow_dvd_pow 2 hSC
  have hCpos : 0 < (2 : Nat) ^ c0.CntLen := Nat.pos_pow_of_pos _ (by norm_num)
  have hVlt : c0.SrvID.toNat < 2 ^ c0.SrvLen := by
    have hcast : ((c0.SrvID.toNat : Int)) = c0.SrvID := Int.toNat_of_nonneg hs0
    have hlt : (c0.SrvID.toNat : Int) < ((2 ^ c0.SrvLen : Nat) : Int) := by
      rw [hcast]
      push_cast
      exact hs1
    exact_mod_cast hlt
  have hpowadd : (2 : Nat) ^ c0.SrvLen * 2 ^ c0.CntLen = 2 ^ (c0.SrvLen + c0.CntLen) :=
    (pow_add 2 _ _).symm
  have hx : g.srvID + cn < 2 ^ (c0.SrvLen + c0.CntLen) := by
    rw [hsrv, ← hpowadd]
    have h1 : c0.SrvID.toNat * 2 ^ c0.CntLen ≤ (2 ^ c0.SrvLen - 1) * 2 ^ c0.CntLen :=
      Nat.mul_le_mul_right _ (by omega)
    have h2 : (2 ^ c0.SrvLen - 1) * 2 ^ c0.CntLen
        = 2 ^ c0.SrvLen * 2 ^ c0.CntLen - 1 * 2 ^ c0.CntLen := by rw [← Nat.sub_mul]
    have h3 : 1 * 2 ^ c0.CntLen ≤ 2 ^ c0.SrvLen * 2 ^ c0.CntLen :=
      Nat.mul_le_mul_right _ Nat.one_le_two_pow
    omega
  have hmod : (e + g.srvID + cn) % 2 ^ 64 % 2 ^ (c0.SrvLen + c0.CntLen) = g.srvID + cn := by
    rw [Nat.mod_mod_of_dvd _ hdvd, Nat.add_assoc, Nat.add_mod, he, Nat.zero_add,
        Nat.mod_mod_of_dvd _ (dvd_refl _), Nat.mod_eq_of_lt hx]
  have hland : ((e + g.srvID + cn) % 2 ^ 64) &&& g.cfg.srvMask = g.srvID := by
    rw [hsrvMask, land_mask]
    have hstep : (e + g.srvID + cn) % 2 ^ 64 / 2 ^ c0.CntLen % 2 ^ c0.SrvLen
        = c0.SrvID.toNat := by
      rw [← Nat.mod_mul_right_div_self]
      rw [show (2 : Nat) ^ c0.CntLen * 2 ^ c0.SrvLen = 2 ^ (c0.SrvLen + c0.CntLen) by
        rw [Nat.mul_comm]
        exact hpowadd]
      rw [hmod, hsrv, Nat.mul_comm, Nat.mul_add_div hCpos, Nat.div_eq_of_lt hcn]
      omega
    rw [hstep, hsrv]
  rw [ServerID, hland, hsrv, toInt64_of_lt hsrv63, hCnt]
  have hcast2 : ((c0.SrvID.toNat * 2 ^ c0.CntLen : Nat) : Int)
      = (c0.SrvID.toNat : Int) * (2 : Int) ^ c0.CntLen := by
    push_cast
    ring
  rw [hcast2, Int.mul_fdiv_cancel _ (ne_of_gt (by positivity))]
  exact Int.toNat_of_nonneg hs0

/-- Every ID issued along any call sequence from an invariant state carries the
configured server identity (provided the shifted server field stays below
2^63). -/
theorem serverID_trace (c0 : UidGeneratorConfig)
    (hsrv63 : c0.SrvID.toNat * 2 ^ c0.CntLen < 2 ^ 63) :
    ∀ (ts : List Int) (g : UidGenerator), GenInv c0 g →
      ∀ id ∈ issueIDs g ts, ServerID g id = c0.SrvID := by
  intro ts
  induction ts with
  | nil =>
    intro g hI id hid
    simp [issueIDs] at hid
  | cons t ts ih =>
    intro g hI id hid
    obtain ⟨hI2, hcfg, hsrvEq, hidEq⟩ := nextID_spec hI t
    simp only [issueIDs] at hid
    rcases List.mem_cons.1 hid with hh | hmem
    · subst hh
      rw [hsrvEq] at hidEq
      rw [hidEq]
      obtain ⟨-, -, -, hu2, -, hcnt2, halign2, -⟩ := id hI2
      obtain ⟨h64, -, -, hu, -, -, -, -⟩ := id hI
      obtain ⟨-, -, -, -, -, -, -, -, -, -, -, -, hmaxCnt, -⟩ := update_fields h64 hu
      have hcnlt : (nextID g t).2.cnt < 2 ^ c0.CntLen := by
        rw [hcfg, hmaxCnt] at hcnt2
        have h1 : 1 ≤ (2 : Nat) ^ c0.CntLen := Nat.one_le_two_pow
        omega
      exact serverID_formula c0 hI hsrv63 halign2 hcnlt
    · have hcongr : ServerID (nextID g t).2 id = ServerID g id := by
        rw [ServerID, ServerID, hcfg]
      rw [← hcongr]
      exact ih (nextID g t).2 hI2 id hmem

/-- C6, amended.  The claim as stated is false at the extreme configuration
SrvLen = 63, CntLen = 1 (see the counterexample): there int64(id & srvMask)
is negative and the arithmetic shift sign-extends, so ServerID returns a
negative value.  It also fails for SrvLen = 64, where int64(maxSrv) = -1
makes construction reject every nonnegative server identity.  Amended claim:
for every configuration whose widths sum to at most 64 with SrvLen at most
63, whose server identity satisfies 0 <= SrvID < 2^SrvLen, and whose shifted
server field SrvID * 2^CntLen is below 2^63, construction succeeds for every
seed, and every ID issued along every call sequence satisfies
ServerID(id) = SrvID. -/
theorem claim6_serverID (c0 : UidGeneratorConfig)
    (h64 : c0.EpochLen + c0.SrvLen + c0.CntLen ≤ 64)
    (hsl : c0.SrvLen ≤ 63)
    (hs0 : 0 ≤ c0.SrvID) (hs1 : c0.SrvID < (2 : Int) ^ c0.SrvLen)
    (hsrv63 : c0.SrvID.toNat * 2 ^ c0.CntLen < 2 ^ 63) :
    (∀ prevID : Nat, (NewUidGenerator c0 prevID).isOk = true) ∧
    (∀ (prevID : Nat) (g : UidGenerator), NewUidGenerator c0 prevID = .ok g →
      ∀ (ts : List Int), ∀ id ∈ issueIDs g ts, ServerID g id = c0.SrvID) := by
  constructor
  · intro prevID
    obtain ⟨c, hc⟩ := update_isOk c0 (by omega)
    obtain ⟨-, -, -, -, -, hSrvID, -, -, -, -, hmaxSrv, -, -, -⟩ := update_fields h64 hc
    rw [NewUidGenerator, hc]
    dsimp only
    rw [if_neg ?_]
    · rfl
    · rw [hSrvID, hmaxSrv, toInt64_of_lt]
      · have hcast : (((2 : Nat) ^ c0.SrvLen - 1 : Nat) : Int) = (2 : Int) ^ c0.SrvLen - 1 := by
          have h1 : 1 ≤ (2 : Nat) ^ c0.SrvLen := Nat.one_le_two_pow
          push_cast [h1]
          ring
        rw [hcast]
        omega
      · have h2 : (2 : Nat) ^ c0.SrvLen ≤ 2 ^ 63 := Nat.pow_le_pow_right (by norm_num) hsl
        have h1 : 1 ≤ (2 : Nat) ^ c0.SrvLen := Nat.one_le_two_pow
        omega
  · intro prevID g hg ts
    exact serverID_trace c0 hsrv63 ts g (genInv_init h64 hs0 hs1 hg)

/-- Witness for the amended C6: the Snowflake-like configuration with server
identity 1; the first issued ID is 4097 and its server field decodes to 1. -/
theorem claim6_witness :
    (NewUidGenerator snowCfgS 123).isOk = true ∧ ServerID snowGenS 4097 = 1 :=
  ⟨(claim6_serverID snowCfgS (by decide) (by decide) (by decide) (by decide)
      (by decide)).1 123,
   (claim6_serverID snowCfgS (by decide) (by decide) (by decide) (by decide)
      (by decide)).2 0 snowGenS (by decide) [0] 4097 (by decide)⟩

/-- Counterexample to C6 as stated: the configuration is valid in the sense of
the claim (widths sum to 64 and 0 <= SrvID = 2^62 < 2^63 = 2^SrvLen),
construction succeeds, yet the first issued ID has ServerID equal to -2^62,
not 2^62: its shifted server field 2^63 has the int64 sign bit set and the
arithmetic right shift sign-extends it. -/
theorem claim6_counterexample :
    cfgC6CE.SrvID = 4611686018427387904 ∧
    cfgC6CE.SrvID < (2 : Int) ^ cfgC6CE.SrvLen ∧
    (NewUidGenerator cfgC6CE 0).map (fun g => ServerID g (nextID g 0).1) =
      .ok (-4611686018427387904) := by
  exact ⟨rfl, by decide, by decide⟩

/-- Counterexample to C3 as stated: the field widths sum to 320 > 64 as
mathematical integers, yet idLen is computed in uint8 arithmetic and wraps to
exactly 64, so the length check passes and NewUidGenerator succeeds instead of
failing with ErrTooLongID. -/
theorem claim3_counterexample :
    cfg255CE.EpochLen + cfg255CE.SrvLen + cfg255CE.CntLen = 320 ∧
    (NewUidGenerator cfg255CE 0).isOk = true :=
  ⟨rfl, by decide⟩

/-- C3, amended: the length check adds the three uint8 widths with wraparound
modulo 256.  Whenever that wrapped sum exceeds 64, NewUidGenerator fails with
ErrTooLongID and no generator is produced. -/
theorem claim3_tooLong (c0 : UidGeneratorConfig) (prevID : Nat)
    (h : (c0.EpochLen + c0.SrvLen + c0.CntLen) % 256 > 64) :
    NewUidGenerator c0 prevID = .error .tooLongID := by
  rw [NewUidGenerator, update, if_pos (by omega)]

/-- Witness for the amended C3 at a concrete input. -/
theorem claim3_witness : NewUidGenerator cfg65W 0 = .error .tooLongID :=
  claim3_tooLong cfg65W 0 (by decide)

/-- C9: for widths summing to at most 64 and a server identity (in int64
range) of at least 2^SrvLen, construction fails with ErrTooBigServerID. -/
theorem claim9_tooBigSrv (c0 : UidGeneratorConfig) (prevID : Nat)
    (h64 : c0.EpochLen + c0.SrvLen + c0.CntLen ≤ 64)
    (hs : (2 : Int) ^ c0.SrvLen ≤ c0.SrvID)
    (hrange : c0.SrvID < 2 ^ 63) :
    NewUidGenerator c0 prevID = .error .tooBigServerID := by
  obtain ⟨c, hc⟩ := update_isOk c0 (by omega)
  obtain ⟨-, -, -, -, -, hSrvID, -, -, -, -, hmaxSrv, -, -, -⟩ := update_fields h64 hc
  have hgt : c.SrvID > toInt64 c.maxSrv := by
    rw [hSrvID, hmaxSrv]
    rcases Nat.lt_or_ge c0.SrvLen 64 with hlt | hge
    · have hsmall : (2 : Nat) ^ c0.SrvLen - 1 < 2 ^ 63 := by
        have h2 : (2 : Nat) ^ c0.SrvLen ≤ 2 ^ 63 :=
          Nat.pow_le_pow_right (by norm_num) (by omega)
        have h1 : 1 ≤ (2 : Nat) ^ c0.SrvLen := Nat.one_le_two_pow
        omega
      rw [toInt64_of_lt hsmall]
      have hcast : (((2 : Nat) ^ c0.SrvLen - 1 : Nat) : Int) = (2 : Int) ^ c0.SrvLen - 1 := by
        have h1 : 1 ≤ (2 : Nat) ^ c0.SrvLen := Nat.one_le_two_pow
        push_cast [h1]
        ring
      rw [hcast]
      omega
    · exfalso
      have h1 : (2 : Int) ^ 63 ≤ (2 : Int) ^ c0.SrvLen :=
        pow_le_pow_right₀ (by norm_num) (by omega)
      omega
  rw [NewUidGenerator, hc]
  dsimp only
  rw [if_pos hgt]

/-- Witness for C9 at a concrete input. -/
theorem claim9_witness : NewUidGenerator cfgW9 0 = .error .tooBigServerID :=
  claim9_tooBigSrv cfgW9 0 (by decide) (by decide) (by decide)

/-- The int64 reinterpretation of maxSrv as computed by update is never below
-1, for any width. -/
theorem toInt64_maxSrv_ge (s : Nat) :
    -1 ≤ toInt64 ((w64 (1 <<< s) + (2 ^ 64 - 1)) % 2 ^ 64) := by
  rcases le_or_lt s 64 with h | h
  · rw [u64_pred_pow h]
    rcases Nat.lt_or_ge s 64 with h1 | h1
    · have hsm : (2 : Nat) ^ s - 1 < 2 ^ 63 := by
        have h2 : (2 : Nat) ^ s ≤ 2 ^ 63 := Nat.pow_le_pow_right (by norm_num) (by omega)
        have h3 : 1 ≤ (2 : Nat) ^ s := Nat.one_le_two_pow
        omega
      rw [toInt64_of_lt hsm]
      exact le_trans (by norm_num) (Int.natCast_nonneg _)
    · have hs64 : s = 64 := by omega
      subst hs64
      decide
  · have hz : w64 (1 <<< s) = 0 := by
      rw [w64, Nat.shiftLeft_eq, one_mul]
      exact Nat.dvd_iff_mod_eq_zero.1 (pow_dvd_pow 2 (by omega))
    rw [hz]
    decide

/-- C10: a negative configured server identity always passes the server-ID
validation (the check rejects only identities above int64(maxSrv), which is
never below -1), so construction succeeds whenever the length check passes,
and the generator's server field is the negative identity shifted left by
CntLen with int64/uint64 wraparound. -/
theorem claim10_negative_srvID (c0 : UidGeneratorConfig) (prevID : Nat)
    (hlen : (c0.EpochLen + c0.SrvLen + c0.CntLen) % 256 ≤ 64)
    (hneg : c0.SrvID < 0) :
    (NewUidGenerator c0 prevID).map UidGenerator.srvID =
      .ok (((c0.SrvID * 2 ^ c0.CntLen) % (2 : Int) ^ 64).toNat) := by
  have hng : ¬ c0.SrvID > toInt64 ((w64 (1 <<< c0.SrvLen) + (2 ^ 64 - 1)) % 2 ^ 64) := by
    have hge := toInt64_maxSrv_ge c0.SrvLen
    omega
  rcases hu : update c0 with e | c
  · rw [update, if_neg (by omega)] at hu
    exact absurd hu (by simp)
  · rw [NewUidGenerator, hu]
    dsimp only
    have hu2 := hu
    rw [update, if_neg (by omega)] at hu2
    injection hu2 with hu2
    subst hu2
    dsimp only
    rw [if_neg hng]
    rfl

/-- Witness for C10 at a concrete input: construction succeeds and the server
field holds -5 shifted by 12 bits, wrapped to 2^64 - 20480. -/
theorem claim10_witness :
    (NewUidGenerator cfgW10 0).map UidGenerator.srvID =
      .ok (((cfgW10.SrvID * 2 ^ cfgW10.CntLen) % (2 : Int) ^ 64).toNat) :=
  claim10_negative_srvID cfgW10 0 (by decide) (by decide)

/-- Decoding the letter of any 5-bit group value gives the value back. -/
theorem decode_letterAt : ∀ d, d < 32 → decodeLetters (letterAt d) = d := by decide

/-- The encoded digit list has the requested length. -/
theorem encodeLetters_length (id n : Nat) : (encodeLetters id n).length = n := by
  rw [encodeLetters, List.length_map, encodeDigits, List.length_map, List.length_range]

/-- Peeling the most significant digit off an encoding. -/
theorem encodeDigits_succ (id n : Nat) :
    encodeDigits id (n + 1) = (id / 32 ^ n % 32) :: encodeDigits id n := by
  rw [encodeDigits, encodeDigits, List.range_succ_eq_map, List.map_cons, List.map_map]
  congr 1
  apply List.map_congr_left
  intro j hj
  have he : n + 1 - 1 - (j + 1) = n - 1 - j := by omega
  simp only [Function.comp]
  rw [he]

/-- A digit of weight below 32^m only depends on the value modulo 32^m. -/
theorem digit_mod {id e m : Nat} (h : e < m) :
    id % 32 ^ m / 32 ^ e % 32 = id / 32 ^ e % 32 := by
  have h1 : (32 : Nat) ^ m = 32 ^ e * 32 ^ (m - e) := by
    rw [← pow_add]
    congr 1
    omega
  rw [h1, Nat.mod_mul_right_div_self]
  have h2 : (32 : Nat) ∣ 32 ^ (m - e) := dvd_pow_self 32 (by omega)
  rw [Nat.mod_mod_of_dvd _ h2]

/-- The low-n-digit encoding only depends on the value modulo 32^n. -/
theorem encodeDigits_mod (id n : Nat) : encodeDigits (id % 32 ^ n) n = encodeDigits id n := by
  rw [encodeDigits, encodeDigits]
  apply List.map_congr_left
  intro j hj
  have hj2 : j < n := List.mem_range.1 hj
  exact digit_mod (by omega)

/-- The FromBase32 accumulation loop inverts the digit encoding, in uint64
arithmetic. -/
theorem decodeLoop_encode : ∀ (n id acc : Nat), id < 32 ^ n → acc < 2 ^ 64 →
    decodeLoop (encodeLetters id n) acc = .ok ((acc * 32 ^ n + id) % 2 ^ 64) := by
  intro n
  induction n with
  | zero =>
    intro id acc h hacc
    rw [pow_zero] at h
    have h0 : id = 0 := by omega
    subst h0
    simp only [encodeLetters, encodeDigits, List.range_zero, List.map_nil, decodeLoop]
    rw [pow_zero, Nat.mul_one, Nat.add_zero, Nat.mod_eq_of_lt hacc]
  | succ n ih =>
    intro id acc h hacc
    have hd : id / 32 ^ n < 32 := by
      apply Nat.div_lt_of_lt_mul
      rw [← pow_succ]
      exact h
    rw [encodeLetters, encodeDigits_succ, List.map_cons,
        show id / 32 ^ n % 32 = id / 32 ^ n from Nat.mod_eq_of_lt hd]
    simp only [decodeLoop]
    rw [decode_letterAt _ hd, if_neg (by omega)]
    rw [← encodeDigits_mod id n]
    have hih := ih (id % 32 ^ n) ((acc * 32 + id / 32 ^ n) % 2 ^ 64)
      (Nat.mod_lt _ (Nat.pos_pow_of_pos _ (by norm_num))) (Nat.mod_lt _ (by norm_num))
    rw [encodeLetters] at hih
    rw [hih]
    congr 1
    have e1 : ((acc * 32 + id / 32 ^ n) % 2 ^ 64 * 32 ^ n + id % 32 ^ n) % 2 ^ 64
        = ((acc * 32 + id / 32 ^ n) * 32 ^ n + id % 32 ^ n) % 2 ^ 64 := by
      rw [Nat.add_mod, Nat.mod_mul_mod, ← Nat.add_mod]
    have e3 : 32 ^ n * (id / 32 ^ n) + id % 32 ^ n = id := Nat.div_add_mod id (32 ^ n)
    have e2 : (acc * 32 + id / 32 ^ n) * 32 ^ n + id % 32 ^ n = acc * 32 ^ (n + 1) + id := by
      calc (acc * 32 + id / 32 ^ n) * 32 ^ n + id % 32 ^ n
          = acc * (32 ^ n * 32) + (32 ^ n * (id / 32 ^ n) + id % 32 ^ n) := by ring
        _ = acc * 32 ^ (n + 1) + id := by rw [e3, pow_succ]
    rw [e1, e2]

/-- FromBase32 of the n-digit encoding of the high part of an ID whose k low
groups are zero recovers the ID: the decode loop reads the digits and the
padding loop restores the k zero groups. -/
theorem fromBase32_encodeLetters (g : UidGenerator) (id k : Nat)
    (hk : k ≤ g.cfg.strLen) (hlen : g.cfg.strLen ≤ 127)
    (hdvd : 32 ^ k ∣ id) (hid : id < 32 ^ g.cfg.strLen) (h64 : id < 2 ^ 64) :
    fromBase32 g (encodeLetters (id / 32 ^ k) (g.cfg.strLen - k)) = .ok id := by
  have hlength : (encodeLetters (id / 32 ^ k) (g.cfg.strLen - k)).length = g.cfg.strLen - k :=
    encodeLetters_length _ _
  have hq : id / 32 ^ k < 32 ^ (g.cfg.strLen - k) := by
    apply Nat.div_lt_of_lt_mul
    rw [← pow_add, show k + (g.cfg.strLen - k) = g.cfg.strLen from by omega]
    exact hid
  have hq64 : id / 32 ^ k < 2 ^ 64 := lt_of_le_of_lt (Nat.div_le_self _ _) h64
  have htake : (encodeLetters (id / 32 ^ k) (g.cfg.strLen - k)).take (g.cfg.strLen - k)
      = encodeLetters (id / 32 ^ k) (g.cfg.strLen - k) :=
    List.take_of_length_le (by rw [hlength])
  have hdec := decodeLoop_encode (g.cfg.strLen - k) (id / 32 ^ k) 0 hq (by norm_num)
  rw [Nat.zero_mul, Nat.zero_add, Nat.mod_eq_of_lt hq64] at hdec
  rw [fromBase32, hlength]
  have hm : (g.cfg.strLen - k) % 256 = g.cfg.strLen - k := Nat.mod_eq_of_lt (by omega)
  rw [hm, if_pos (by omega), htake, hdec]
  dsimp only
  have hexp : g.cfg.strLen - (g.cfg.strLen - k) = k := by omega
  rw [hexp, w64, Nat.div_mul_cancel hdvd, Nat.mod_eq_of_lt h64]

/-- The truncation loop of ToBase32, characterised on nonzero inputs within
its fuel: it strips the k trailing zero groups and decrements the index by k. -/
theorem stripLoop_spec : ∀ (fuel id : Nat) (i : Int), id ≠ 0 → id < 32 ^ fuel →
    ∃ k, k < fuel ∧ 32 ^ k ∣ id ∧ id / 32 ^ k % 32 ≠ 0 ∧
      stripLoop fuel id i = some (id / 32 ^ k, i - k) := by
  intro fuel
  induction fuel with
  | zero =>
    intro id i h0 hlt
    rw [pow_zero] at hlt
    omega
  | succ n ih =>
    intro id i h0 hlt
    by_cases h : id % 32 = 0
    · have h32 : 32 ∣ id := Nat.dvd_of_mod_eq_zero h
      have hq0 : id / 32 ≠ 0 := by
        intro hz
        have := Nat.div_mul_cancel h32
        rw [hz] at this
        omega
      have hqlt : id / 32 < 32 ^ n := by
        apply Nat.div_lt_of_lt_mul
        rw [Nat.mul_comm, ← pow_succ]
        exact hlt
      obtain ⟨k, hk, hdvd, hnz, heq⟩ := ih (id / 32) (i - 1) hq0 hqlt
      have hdd : id / 32 / 32 ^ k = id / 32 ^ (k + 1) := by
        rw [Nat.div_div_eq_div_mul, ← pow_succ']
      refine ⟨k + 1, by omega, ?_, ?_, ?_⟩
      · obtain ⟨m, hm⟩ := hdvd
        obtain ⟨p, hp⟩ := h32
        refine ⟨m, ?_⟩
        rw [hp] at hm ⊢
        rw [Nat.mul_div_cancel_left _ (by norm_num : (0:Nat) < 32)] at hm
        rw [hm, pow_succ]
        ring
      · rw [← hdd]
        exact hnz
      · rw [stripLoop, if_pos h, heq, hdd]
        congr 1
        push_cast
        ring_nf
    · refine ⟨0, by omega, one_dvd _, ?_, ?_⟩
      · rw [pow_zero, Nat.div_one]
        exact h
      · rw [stripLoop, if_neg h, pow_zero, Nat.div_one]
        congr 1
        simp

/-- C2 evaluated at the failing input: decoding "??" (byte 63 twice) returns
ID 0 with no error, because init() writes the 0xFF sentinel only to table
entries 0 through 31 (it iterates up to len(letters) = 32, not the table
size 256), so the entry for the byte 63 keeps the zero value and decodes as
the letter with index 0. -/
theorem claim2_invalid_char_accepted :
    fromBase32 snowGenS [63, 63] = .ok 0 ∧ decodeLetters 63 = 0 :=
  ⟨rfl, rfl⟩

/-- C4 evaluated at the failing input: with the truncation flag enabled,
ToBase32 of ID 0 never terminates (the strip loop condition id & 31 == 0
never becomes false), modelled as none, so the round trip never returns;
with truncation disabled the round trip at 0 does hold. -/
theorem claim4_roundtrip_zero_diverges :
    toBase32 snowGenT 0 = none ∧
    (toBase32 snowGenS 0).map (fromBase32 snowGenS) = some (.ok 0) :=
  ⟨rfl, rfl⟩

/-- Counterexample to C7 as stated: for the UniqueID 0 the truncating ToBase32
produces no string at all (its strip loop never terminates), so no string of
length at most strLen is returned. -/
theorem claim7_counterexample : toBase32 gen20T 0 = none := rfl

/-- C7, amended: for a compiled configuration with truncation enabled and a
nonzero ID representable in strLen * 5 bits, ToBase32 terminates, its output
length is at most strLen, and FromBase32 maps both the truncated string and
the zero-padded full-length encoding back to the ID.  At ID 0 the truncating
encoder diverges (see the counterexample). -/
theorem claim7_trunc_roundtrip (c0 : UidGeneratorConfig) {g : UidGenerator} (id : Nat)
    (h64 : c0.EpochLen + c0.SrvLen + c0.CntLen ≤ 64)
    (hu : update c0 = .ok g.cfg)
    (hT : c0.TruncStr = true)
    (h0 : id ≠ 0) (hid64 : id < 2 ^ 64) (hid : id < 32 ^ g.cfg.strLen) :
    (toBase32 g id).isSome = true ∧
    ((toBase32 g id).getD []).length ≤ g.cfg.strLen ∧
    fromBase32 g ((toBase32 g id).getD []) = .ok id ∧
    fromBase32 g (encodeLetters id g.cfg.strLen) = .ok id := by
  obtain ⟨-, -, -, hTr, -, -, hstr, -, -, -, -, -, -, -⟩ := update_fields h64 hu
  have hlen13 : g.cfg.strLen ≤ 13 := by
    rw [hstr]
    omega
  have hfuel : id < 32 ^ 13 := by
    calc id < 2 ^ 64 := hid64
      _ < 32 ^ 13 := by norm_num
  obtain ⟨k, hk13, hdvd, hnz, heq⟩ := stripLoop_spec 13 id ((g.cfg.strLen : Int) - 1) h0 hfuel
  have hkstr : k < g.cfg.strLen := by
    have h1 : (32 : Nat) ^ k ≤ id := Nat.le_of_dvd (by omega) hdvd
    have h2 : (32 : Nat) ^ k < 32 ^ g.cfg.strLen := lt_of_le_of_lt h1 hid
    exact (Nat.pow_lt_pow_iff_right (by norm_num)).1 h2
  have hTg : g.cfg.TruncStr = true := by rw [hTr, hT]
  have htb : toBase32 g id = some (encodeLetters (id / 32 ^ k) (g.cfg.strLen - k)) := by
    rw [toBase32, if_pos hTg, heq]
    dsimp only
    have hnneg : ¬ ((g.cfg.strLen : Int) - 1 - k + 1 < 0) := by
      omega
    rw [if_neg hnneg]
    have htonat : ((g.cfg.strLen : Int) - 1 - k + 1).toNat = g.cfg.strLen - k := by
      have he : (g.cfg.strLen : Int) - 1 - k + 1 = ((g.cfg.strLen - k : Nat) : Int) := by
        push_cast [Nat.cast_sub hkstr.le]
        ring
      rw [he, Int.toNat_natCast]
    rw [htonat]
  refine ⟨by rw [htb]; rfl, ?_, ?_, ?_⟩
  · rw [htb]
    dsimp only [Option.getD]
    rw [encodeLetters_length]
    omega
  · rw [htb]
    dsimp only [Option.getD]
    exact fromBase32_encodeLetters g id k hkstr.le (by omega) hdvd hid hid64
  · have hfrom := fromBase32_encodeLetters g id 0 (Nat.zero_le _) (by omega)
      (one_dvd _) hid hid64
    rw [pow_zero, Nat.div_one, Nat.sub_zero] at hfrom
    exact hfrom

/-- Witness for the amended C7 at a concrete input: the truncating
Snowflake-like generator and the ID 2^22 (four trailing zero groups). -/
theorem claim7_witness :
    (toBase32 snowGenT 4194304).isSome = true ∧
    ((toBase32 snowGenT 4194304).getD []).length ≤ snowGenT.cfg.strLen ∧
    fromBase32 snowGenT ((toBase32 snowGenT 4194304).getD []) = .ok 4194304 ∧
    fromBase32 snowGenT (encodeLetters 4194304 snowGenT.cfg.strLen) = .ok 4194304 :=
  claim7_trunc_roundtrip snowCfgT 4194304 (by decide) (by decide) (by decide)
    (by decide) (by decide) (by decide)

/-- Counterexample to C8 as stated: t = EpochStart - 2048 is aligned to the
interval granularity of SnowflakeConfig ((t - EpochStart) * 10^9 is an exact
multiple of 2^20), yet Unix(FromUnix(t)) = 5900518944, not t: the negative
elapsed time is reinterpreted as a huge uint64 before the logical right
shift. -/
theorem claim8_counterexample :
    ((1288832926 - 1288834974 : Int) * 1000000000) % 2 ^ 20 = 0 ∧
    Unix snowGen0 (FromUnix snowGen0 1288832926) = 5900518944 ∧
    (5900518944 : Int) ≠ 1288832926 :=
  ⟨by decide, by decide, by decide⟩

/-- C8, amended: Unix inverts FromUnix on every aligned time t that is not
before EpochStart, whose elapsed nanoseconds fit in an int64 (below 2^63),
and whose interval count k fits under the epoch shift (k < 2^(64 -
epochShift)).  Outside these bounds the uint64 reinterpretation or the
64-bit shifts lose information; the counterexample shows the failure for
t < EpochStart. -/
theorem claim8_unix_fromUnix (c0 : UidGeneratorConfig) {g : UidGenerator} (t : Int) (k : Nat)
    (h64 : c0.EpochLen + c0.SrvLen + c0.CntLen ≤ 64)
    (hu : update c0 = .ok g.cfg)
    (hsrv : g.srvID < 2 ^ (c0.SrvLen + c0.CntLen))
    (hts : c0.EpochStart ≤ t)
    (hk : (t - c0.EpochStart).toNat * 1000000000 = k * 2 ^ g.cfg.IntervalLen)
    (hN : (t - c0.EpochStart).toNat * 1000000000 < 2 ^ 63)
    (hk2 : k < 2 ^ (64 - (c0.SrvLen + c0.CntLen))) :
    Unix g (FromUnix g t) = t := by
  obtain ⟨-, -, -, -, hES, -, -, hshift, -, -, -, -, -, -⟩ := update_fields h64 hu
  have hSC : c0.SrvLen + c0.CntLen ≤ 64 := by omega
  have h2Spos : 0 < (2 : Nat) ^ (c0.SrvLen + c0.CntLen) := Nat.pos_pow_of_pos _ (by norm_num)
  have h2Sle : (2 : Nat) ^ (c0.SrvLen + c0.CntLen) ≤ 2 ^ 64 :=
    Nat.pow_le_pow_right (by norm_num) hSC
  have h2Ipos : 0 < (2 : Nat) ^ g.cfg.IntervalLen := Nat.pos_pow_of_pos _ (by norm_num)
  have hXS : (2 ^ (64 - (c0.SrvLen + c0.CntLen)) - 1) * 2 ^ (c0.SrvLen + c0.CntLen)
      = 2 ^ (64 - (c0.SrvLen + c0.CntLen)) * 2 ^ (c0.SrvLen + c0.CntLen)
        - 1 * 2 ^ (c0.SrvLen + c0.CntLen) := by
    rw [← Nat.sub_mul]
  have hX64 : (2 : Nat) ^ (64 - (c0.SrvLen + c0.CntLen)) * 2 ^ (c0.SrvLen + c0.CntLen)
      = 2 ^ 64 := by
    rw [← pow_add]
    congr 1
    omega
  have hk1 : k * 2 ^ (c0.SrvLen + c0.CntLen)
      ≤ (2 ^ (64 - (c0.SrvLen + c0.CntLen)) - 1) * 2 ^ (c0.SrvLen + c0.CntLen) :=
    Nat.mul_le_mul_right _ (by omega)
  have hkX : k * 2 ^ (c0.SrvLen + c0.CntLen) ≤ 2 ^ 64 - 2 ^ (c0.SrvLen + c0.CntLen) := by
    calc k * 2 ^ (c0.SrvLen + c0.CntLen)
        ≤ (2 ^ (64 - (c0.SrvLen + c0.CntLen)) - 1) * 2 ^ (c0.SrvLen + c0.CntLen) := hk1
      _ = 2 ^ 64 - 1 * 2 ^ (c0.SrvLen + c0.CntLen) := by rw [hXS, hX64]
      _ = 2 ^ 64 - 2 ^ (c0.SrvLen + c0.CntLen) := by rw [Nat.one_mul]
  have hkS : k * 2 ^ (c0.SrvLen + c0.CntLen) < 2 ^ 64 := by omega
  have hsum : k * 2 ^ (c0.SrvLen + c0.CntLen) + g.srvID < 2 ^ 64 := by omega
  have hD0 : (0 : Int) ≤ t - c0.EpochStart := by omega
  have hDcast : ((t - c0.EpochStart).toNat : Int) = t - c0.EpochStart := Int.toNat_of_nonneg hD0
  have hN64 : (t - c0.EpochStart).toNat * 1000000000 < 2 ^ 64 := by
    have h163 : (2 : Nat) ^ 63 < 2 ^ 64 := by norm_num
    omega
  have hDlt : (t - c0.EpochStart) < (2 : Int) ^ 64 := by
    rw [← hDcast]
    have hlt : (t - c0.EpochStart).toNat < 2 ^ 64 := by
      have h9 : (t - c0.EpochStart).toNat ≤ (t - c0.EpochStart).toNat * 1000000000 :=
        Nat.le_mul_of_pos_right _ (by norm_num)
      omega
    exact_mod_cast hlt
  have hfu : FromUnix g t = k * 2 ^ (c0.SrvLen + c0.CntLen) + g.srvID := by
    rw [FromUnix, hES, hshift, toUint64_of_lt hD0 hDlt]
    simp only [w64]
    rw [Nat.mod_eq_of_lt hN64, Nat.shiftRight_eq_div_pow, hk, Nat.mul_div_cancel _ h2Ipos,
        Nat.shiftLeft_eq, Nat.mod_eq_of_lt hkS, Nat.mod_eq_of_lt hsum]
  rw [hfu, Unix, hES, hshift]
  simp only [w64]
  have hid : (k * 2 ^ (c0.SrvLen + c0.CntLen) + g.srvID) >>> (c0.SrvLen + c0.CntLen) = k := by
    rw [Nat.shiftRight_eq_div_pow, Nat.mul_comm, Nat.mul_add_div h2Spos,
        Nat.div_eq_of_lt hsrv, Nat.add_zero]
  rw [hid, Nat.shiftLeft_eq, ← hk, Nat.mod_eq_of_lt hN64, toInt64_of_lt hN]
  have hcast : (((t - c0.EpochStart).toNat * 1000000000 : Nat) : Int)
      = ((t - c0.EpochStart).toNat : Int) * 1000000000 := by
    push_cast
    ring
  rw [hcast, Int.mul_tmod_left, if_neg (by norm_num), Int.mul_tdiv_cancel _ (by norm_num),
      hDcast]
  ring

/-- Witness for the amended C8 at a concrete input: the Snowflake generator
and the aligned time t = EpochStart + 2048 (interval count k = 1953125). -/
theorem claim8_witness :
    Unix snowGen0 (FromUnix snowGen0 1288837022) = 1288837022 :=
  claim8_unix_fromUnix SnowflakeConfig 1288837022 1953125 (by decide) (by decide)
    (by decide) (by decide) (by decide) (by decide) (by decide)

end Uidgen
